import Mathlib

/-!
Shallow embedding of `tensorrt_llm/llmapi/disagg_utils.py`: the disaggregated
serving configuration composer (`extract_disagg_cfg`, `extract_ctx_gen_cfgs`,
`extract_router_config`) and the topology registry / rank partitioner
(`get_server_configs_dict`, `split_world_comm`).

Python dictionaries of configuration values are modelled as insertion-ordered
association lists over a value type `Val` (YAML scalars, lists and nested
mappings); Python `==` on such values is the key-set-insensitive deep equality
`Val.beq`.  Fallible code returns `Except Err`.  The MPI calls at the end of
`split_world_comm` (`COMM_WORLD.Split`, `Barrier`) are an external group
communication service per the spec; the embedding models the local
computation, returning the locally computed `(is_leader, instance_idx,
instance_sub_rank)` triple, where `instance_sub_rank` is the key handed to
`Split`.
-/

set_option autoImplicit false

namespace DisaggUtils

/-- A YAML-derived configuration value: the payloads that flow through the
`dict` arguments of `disagg_utils.py`. -/
inductive Val where
  | vnone : Val
  | vstr : String → Val
  | vint : Int → Val
  | vbool : Bool → Val
  | vlist : List Val → Val
  | vdict : List (String × Val) → Val

/-- An insertion-ordered Python `dict` with `String` keys. -/
abbrev Dict := List (String × Val)

/-- First-match key lookup, `d[k]` / `d.get(k)`. -/
def dlookup : Dict → String → Option Val
  | [], _ => none
  | (k, v) :: rest, key => if k = key then some v else dlookup rest key

/-- Python `key in d`. -/
def dcontains (d : Dict) (k : String) : Bool :=
  (dlookup d k).isSome

/-- Python `d[k] = v`: overwrite in place if the key exists, else append
(insertion order preserved). -/
def dset : Dict → String → Val → Dict
  | [], key, v => [(key, v)]
  | (k, w) :: rest, key, v =>
    if k = key then (k, v) :: rest else (k, w) :: dset rest key v

/-- Python `d.pop(k, default)` viewed as the residual dictionary: the entry
for `k` is removed (dictionaries built by this code have unique keys). -/
def derase : Dict → String → Dict
  | [], _ => []
  | (k, w) :: rest, key =>
    if k = key then derase rest key else (k, w) :: derase rest key

/-- Every key of `a` occurs in `b` (one half of Python dict equality). -/
def keysSubset (a b : Dict) : Bool :=
  a.all fun p => dcontains b p.1

mutual

/-- Python `==` on configuration values: deep structural equality, with
mappings compared by key lookup (insertion order irrelevant). -/
def Val.beq : Val → Val → Bool
  | .vnone, .vnone => true
  | .vstr a, .vstr b => a == b
  | .vint a, .vint b => a == b
  | .vbool a, .vbool b => a == b
  | .vlist a, .vlist b => listBeq a b
  | .vdict a, .vdict b => dictSub a b && keysSubset b a
  | _, _ => false

/-- Pointwise Python `==` on lists of values. -/
def listBeq : List Val → List Val → Bool
  | [], [] => true
  | x :: xs, y :: ys => Val.beq x y && listBeq xs ys
  | _, _ => false

/-- Every entry of `a` is matched by a `Val.beq`-equal entry of `b`. -/
def dictSub : Dict → Dict → Bool
  | [], _ => true
  | (k, v) :: rest, b =>
    (match dlookup b k with
     | some w => Val.beq v w
     | none => false) && dictSub rest b

end

/-- Python `==` on two dictionaries. -/
def dictBeq (a b : Dict) : Bool :=
  dictSub a b && keysSubset b a

/-- The `Literal['ctx', 'gen']` tag of `CtxGenServerConfig.type`. -/
inductive SType where
  | ctx : SType
  | gen : SType
deriving DecidableEq

/-- `class ServerRole(Enum)`. -/
inductive ServerRole where
  | CONTEXT : ServerRole
  | GENERATION : ServerRole

/-- `@dataclass CtxGenServerConfig`. -/
structure CtxGenServerConfig where
  type : SType
  hostname : Option String := none
  port : Option Int := none
  instance_num_ranks : Int := 1
  other_args : Dict := []

/-- `@dataclass RouterConfig` (`server_role` defaults to `None`). -/
structure RouterConfig where
  type : Val := .vstr "round_robin"
  args : Dict := []
  server_role : Option ServerRole := none

/-- `@dataclass ConditionalDisaggConfig`. -/
structure ConditionalDisaggConfig where
  max_local_prefill_length : Int := 0

/-- `@dataclass DisaggServerConfig`. -/
structure DisaggServerConfig where
  server_configs : List CtxGenServerConfig
  hostname : String := "localhost"
  port : Int := 8000
  ctx_router_config : Option RouterConfig := none
  gen_router_config : Option RouterConfig := none
  conditional_disagg_config : Option ConditionalDisaggConfig := none
  max_retries : Int := 3

/-- A `(hostname, port)` pair, the registry key. -/
abbrev Addr := Option String × Option Int

/-- The errors the module raises.  Each `ValueError` site of the source is one
constructor, carrying exactly the data its f-string message interpolates; the
`assert` in `split_world_comm` is `topologySizeMismatch`; `dynamicType` stands
for a Python-level `TypeError`/`AttributeError` on an ill-typed payload. -/
inductive Err where
  | configConflict (key : String) (sec : String) : Err
  | instanceCountMismatch (got expected : Int) : Err
  | addressParse : Err
  | duplicateServer (ty : SType) (url : Addr) : Err
  | mixedRoleArgsConflict (url : Addr) (prevArgs newArgs : Dict) : Err
  | topologySizeMismatch (globalSize numWorkers : Int) : Err
  | dynamicType : Err

/-- The loop body of `extract_disagg_cfg` over `kwargs.items()`: each
top-level key is checked against (first) the context section and (then) the
generation section; a present key must hold a `==`-equal value or the
f-string `ValueError` is raised; an absent key is injected. -/
def inherit_kwargs : List (String × Val) → Dict → Dict → Except Err (Dict × Dict)
  | [], ctx, gen => .ok (ctx, gen)
  | (key, value) :: rest, ctx, gen => do
    let ctx1 ←
      match dlookup ctx key with
      | some v =>
        if Val.beq v value then pure ctx
        else throw (Err.configConflict key "context_servers")
      | none => pure (dset ctx key value)
    let gen1 ←
      match dlookup gen key with
      | some v =>
        if Val.beq v value then pure gen
        else throw (Err.configConflict key "generation_servers")
      | none => pure (dset gen key value)
    inherit_kwargs rest ctx1 gen1

/-- `args.pop(key, default)` copy loop of `extract_router_config`:
`for key in ["max_batch_size", "max_num_tokens"]: if key in server_cfg:
args[key] = server_cfg[key]`. -/
def copy_extract_keys (server_cfg args : Dict) : Dict :=
  ["max_batch_size", "max_num_tokens"].foldl
    (fun a key =>
      match dlookup server_cfg key with
      | some v => dset a key v
      | none => a)
    args

/-- `extract_router_config`: pops the `router` sub-mapping (returned here as
the residual section dictionary, since Python mutates `server_cfg` in place),
pops its `type` with default `"round_robin"`, and copies the two batching
keys across. -/
def extract_router_config (server_cfg : Dict) : Except Err (RouterConfig × Dict) := do
  let args0 ←
    match dlookup server_cfg "router" with
    | none => pure ([] : Dict)
    | some (.vdict d) => pure d
    | some _ => throw Err.dynamicType
  let server_cfg1 := derase server_cfg "router"
  let router_type :=
    match dlookup args0 "type" with
    | some v => v
    | none => Val.vstr "round_robin"
  let args1 := derase args0 "type"
  let args2 := copy_extract_keys server_cfg1 args1
  return ({ type := router_type, args := args2, server_role := none }, server_cfg1)

/-- `url.split(':')` on the character sequence: split at every colon,
keeping empty parts (structural recursion, so concrete inputs evaluate
definitionally). -/
def splitParts : List Char → List (List Char)
  | [] => [[]]
  | c :: rest =>
    if c = ':' then [] :: splitParts rest
    else
      match splitParts rest with
      | [] => [[c]]
      | p :: pt => (c :: p) :: pt

/-- Decimal digit accumulation for `int(...)`. -/
def digitsAux : List Char → Nat → Option Nat
  | [], acc => some acc
  | c :: rest, acc =>
    if c.isDigit then digitsAux rest (acc * 10 + (c.toNat - 48)) else none

/-- A nonempty all-digit sequence, as a number. -/
def decDigits : List Char → Option Nat
  | [] => none
  | cs => digitsAux cs 0

/-- Python `int(port_str)`: an optional sign followed by decimal digits. -/
def pyInt (cs : List Char) : Option Int :=
  match cs with
  | Char.ofNat 45 :: rest => (decDigits rest).map fun n => -(n : Int)
  | Char.ofNat 43 :: rest => (decDigits rest).map fun n => (n : Int)
  | _ => (decDigits cs).map fun n => (n : Int)

/-- `hostname, port_str = url.split(':'); port = int(port_str)`: exactly one
delimiter and a numeric port, else the `ValueError` is an address-parse
failure. -/
def parse_url (s : String) : Except Err (String × Int) :=
  match splitParts s.data with
  | [h, p] =>
    match pyInt p with
    | some n => Except.ok (String.mk h, n)
    | none => Except.error Err.addressParse
  | _ => Except.error Err.addressParse

/-- The `for url in urls` parsing loop; a non-string entry is a Python
`AttributeError`. -/
def parse_urls : List Val → Except Err (List (String × Int))
  | [] => .ok []
  | .vstr s :: rest => do
    let hp ← parse_url s
    let others ← parse_urls rest
    return hp :: others
  | _ :: _ => .error Err.dynamicType

/-- `kwargs.get(key, dflt)` where the use site needs an integer. -/
def getIntField (d : Dict) (key : String) (dflt : Int) : Except Err Int :=
  match dlookup d key with
  | none => .ok dflt
  | some (.vint n) => .ok n
  | some _ => .error Err.dynamicType

/-- The `if urls: ... else: hostnames = [None] * num_instances` block of
`extract_ctx_gen_cfgs`, producing the per-instance `(hostname, port)` pairs.
`if urls:` is Python truthiness, so an absent key, a `None` value and an
*empty* list all take the `[None] * num_instances` branch; a non-empty list
is parsed entry by entry and its length compared with `num_instances`. -/
def resolve_url_pairs (num_instances : Int) (urlsVal : Option Val) :
    Except Err (List (Option String × Option Int)) :=
  match urlsVal with
  | none =>
    .ok (List.replicate num_instances.toNat ((none : Option String), (none : Option Int)))
  | some Val.vnone =>
    .ok (List.replicate num_instances.toNat ((none : Option String), (none : Option Int)))
  | some (.vlist us) =>
    if us.isEmpty then
      .ok (List.replicate num_instances.toNat ((none : Option String), (none : Option Int)))
    else
      match parse_urls us with
      | .error e => .error e
      | .ok hps =>
        if (hps.length : Int) = num_instances then
          .ok (hps.map fun hp => ((some hp.1 : Option String), (some hp.2 : Option Int)))
        else
          .error (Err.instanceCountMismatch hps.length num_instances)
  | some _ => .error Err.dynamicType

/-- `extract_ctx_gen_cfgs(type, num_instances=1, urls=None, **kwargs)`.
A `type` key in the section dictionary is Python's duplicate-keyword
`TypeError` at the call site; `num_instances` and `urls` are consumed as
named parameters, everything else is `kwargs`.  Each produced config carries
`instance_num_ranks = tensor_parallel_size * pipeline_parallel_size`
(defaults 1) and the full residual `kwargs` as `other_args`. -/
def extract_ctx_gen_cfgs (ty : SType) (d : Dict) : Except Err (List CtxGenServerConfig) := do
  if dcontains d "type" then throw Err.dynamicType
  let num_instances ← getIntField d "num_instances" 1
  let kwargs := derase (derase d "num_instances") "urls"
  let pairs ← resolve_url_pairs num_instances (dlookup d "urls")
  let tp ← getIntField kwargs "tensor_parallel_size" 1
  let pp ← getIntField kwargs "pipeline_parallel_size" 1
  return pairs.map fun hp =>
    { type := ty, hostname := hp.1, port := hp.2, instance_num_ranks := tp * pp,
      other_args := kwargs }

/-- `ConditionalDisaggConfig(**d)`: only the single declared field is an
acceptable keyword. -/
def parse_conditional_disagg (d : Dict) : Except Err ConditionalDisaggConfig :=
  if d.all fun p => p.1 == "max_local_prefill_length" then
    match dlookup d "max_local_prefill_length" with
    | none => .ok {}
    | some (.vint n) => .ok { max_local_prefill_length := n }
    | some _ => .error Err.dynamicType
  else .error Err.dynamicType

/-- `extract_disagg_cfg`: normalize the top-level `kwargs` into both role
sections, extract both router configurations (which removes `router` from
each section), expand both sections into server configs (context first), tag
the routers with their roles, and assemble the `DisaggServerConfig`.
`context_servers or {}` and the truthiness test on
`conditional_disagg_config` treat `None` and `{}` alike. -/
def extract_disagg_cfg (hostname : String) (port : Int) (max_retries : Int)
    (context_servers generation_servers : Option Dict)
    (conditional_disagg_config : Option Dict)
    (kwargs : List (String × Val)) : Except Err DisaggServerConfig := do
  let ctx0 := context_servers.getD []
  let gen0 := generation_servers.getD []
  let (ctx1, gen1) ← inherit_kwargs kwargs ctx0 gen0
  let (ctx_router0, ctx2) ← extract_router_config ctx1
  let (gen_router0, gen2) ← extract_router_config gen1
  let ctx_cfgs ← extract_ctx_gen_cfgs SType.ctx ctx2
  let gen_cfgs ← extract_ctx_gen_cfgs SType.gen gen2
  let server_configs := ctx_cfgs ++ gen_cfgs
  let ctx_router := { ctx_router0 with server_role := some ServerRole.CONTEXT }
  let gen_router := { gen_router0 with server_role := some ServerRole.GENERATION }
  let cdc ←
    match conditional_disagg_config with
    | none => pure (none : Option ConditionalDisaggConfig)
    | some [] => pure (none : Option ConditionalDisaggConfig)
    | some dd => do
      let c ← parse_conditional_disagg dd
      pure (some c)
  return { server_configs := server_configs, hostname := hostname, port := port,
           ctx_router_config := some ctx_router, gen_router_config := some gen_router,
           conditional_disagg_config := cdc, max_retries := max_retries }

/-- The registry's `server_dict`, an insertion-ordered mapping from address
to the first-seen config at that address. -/
abbrev SDict := List (Addr × CtxGenServerConfig)

/-- `url in server_dict` / `server_dict[url]`. -/
def slookup : SDict → Addr → Option CtxGenServerConfig
  | [], _ => none
  | (a, c) :: rest, addr => if a = addr then some c else slookup rest addr

/-- `server_dict.pop(url)` viewed as the residual dictionary. -/
def sremove : SDict → Addr → SDict
  | [], _ => []
  | (a, c) :: rest, addr =>
    if a = addr then sremove rest addr else (a, c) :: sremove rest addr

/-- The scan loop of `get_server_configs_dict`: a repeated address with the
same role raises the duplicated-server `ValueError`; with a different role it
is accepted exactly when the `other_args` are `==`-equal (else the
different-args `ValueError`), and contributes nothing; a fresh address is
registered and its `instance_num_ranks` accumulated. -/
def get_scfgs_go : List CtxGenServerConfig → Int → SDict → Except Err (Int × SDict)
  | [], num_workers, server_dict => .ok (num_workers, server_dict)
  | cfg :: rest, num_workers, server_dict =>
    let url : Addr := (cfg.hostname, cfg.port)
    match slookup server_dict url with
    | some cfg_prev =>
      if cfg_prev.type = cfg.type then
        .error (Err.duplicateServer cfg.type url)
      else if dictBeq cfg_prev.other_args cfg.other_args then
        get_scfgs_go rest num_workers server_dict
      else
        .error (Err.mixedRoleArgsConflict url cfg_prev.other_args cfg.other_args)
    | none =>
      get_scfgs_go rest (num_workers + cfg.instance_num_ranks)
        (server_dict ++ [(url, cfg)])

/-- `get_server_configs_dict`. -/
def get_server_configs_dict (server_configs : List CtxGenServerConfig) :
    Except Err (Int × SDict) :=
  get_scfgs_go server_configs 0 []

/-- The mutable locals of the offset walk in `split_world_comm`. -/
structure WalkState where
  is_leader : Bool := false
  offset : Int := 0
  instance_idx : Nat := 0
  instance_sub_rank : Int := 0

/-- The `for idx, cfg in enumerate(server_configs)` walk of
`split_world_comm`: an address no longer in `server_dict` is skipped; a
present address is popped, and if the caller's rank falls in
`[offset, offset + instance_num_ranks)` the instance index and sub-rank are
recorded (`is_leader` set when the rank equals the offset); the offset then
advances by `instance_num_ranks`. -/
def walk (global_rank : Int) :
    List CtxGenServerConfig → Nat → SDict → WalkState → WalkState
  | [], _, _, s => s
  | cfg :: rest, idx, sd, s =>
    match slookup sd (cfg.hostname, cfg.port) with
    | none => walk global_rank rest (idx + 1) sd s
    | some _ =>
      let sd1 := sremove sd (cfg.hostname, cfg.port)
      let s1 :=
        if s.offset ≤ global_rank ∧ global_rank < s.offset + cfg.instance_num_ranks then
          { is_leader := s.is_leader || decide (global_rank = s.offset),
            offset := s.offset + cfg.instance_num_ranks,
            instance_idx := idx,
            instance_sub_rank := global_rank - s.offset }
        else
          { s with offset := s.offset + cfg.instance_num_ranks }
      walk global_rank rest (idx + 1) sd1 s1

/-- `split_world_comm`, up to the hand-off to the external group
communication service: validates the global size against the registry total
(the `assert`), runs the offset walk, and returns the locally computed
`(is_leader, instance_idx, instance_sub_rank)`; `instance_sub_rank` is the
`key` passed to `COMM_WORLD.Split` and the value the post-split
verification compares against. -/
def split_world_comm (global_size global_rank : Int)
    (server_configs : List CtxGenServerConfig) : Except Err (Bool × Nat × Int) := do
  let (num_workers, server_dict) ← get_server_configs_dict server_configs
  if global_size = num_workers then
    let s := walk global_rank server_configs 0 server_dict {}
    return (s.is_leader, s.instance_idx, s.instance_sub_rank)
  else
    throw (Err.topologySizeMismatch global_size num_workers)

/-- The rank intervals `(idx, offset, instance_num_ranks)` owned by the
non-skipped instances, read off the offset walk of `split_world_comm`
(same skip rule, same offset accumulation). -/
def intervalsFrom : List CtxGenServerConfig → SDict → Nat → Int →
    List (Nat × Int × Int)
  | [], _, _, _ => []
  | cfg :: rest, sd, idx, o =>
    match slookup sd (cfg.hostname, cfg.port) with
    | none => intervalsFrom rest sd (idx + 1) o
    | some _ =>
      (idx, o, cfg.instance_num_ranks) ::
        intervalsFrom rest (sremove sd (cfg.hostname, cfg.port)) (idx + 1)
          (o + cfg.instance_num_ranks)

/-- Total width of a list of intervals. -/
def isum (l : List (Nat × Int × Int)) : Int :=
  l.foldr (fun e a => e.2.2 + a) 0

/-- The interval `[offset, offset + count)` contains the rank `r`. -/
def covers (e : Nat × Int × Int) (r : Int) : Prop :=
  e.2.1 ≤ r ∧ r < e.2.1 + e.2.2

instance (e : Nat × Int × Int) (r : Int) : Decidable (covers e r) :=
  inferInstanceAs (Decidable (_ ∧ _))

/-! ### Dictionary lemmas -/

theorem dlookup_derase_self (d : Dict) (k : String) :
    dlookup (derase d k) k = none := by
  induction d with
  | nil => rfl
  | cons p rest ih =>
    obtain ⟨k1, v1⟩ := p
    by_cases h : k1 = k
    · simpa [derase, h] using ih
    · simp [derase, h, dlookup, ih]

theorem dlookup_derase_ne (d : Dict) (k k2 : String) (h : k ≠ k2) :
    dlookup (derase d k) k2 = dlookup d k2 := by
  induction d with
  | nil => rfl
  | cons p rest ih =>
    obtain ⟨k1, v1⟩ := p
    by_cases h1 : k1 = k
    · subst h1
      simp [derase, dlookup, h, ih]
    · by_cases h2 : k1 = k2 <;> simp [derase, dlookup, h1, h2, ih, Ne.symm h]

theorem dlookup_dset_self (d : Dict) (k : String) (v : Val) :
    dlookup (dset d k v) k = some v := by
  induction d with
  | nil => simp [dset, dlookup]
  | cons p rest ih =>
    obtain ⟨k1, v1⟩ := p
    by_cases h : k1 = k <;> simp [dset, dlookup, h, ih]

theorem dlookup_dset_ne (d : Dict) (k k2 : String) (v : Val) (h : k ≠ k2) :
    dlookup (dset d k v) k2 = dlookup d k2 := by
  induction d with
  | nil => simp [dset, dlookup, h]
  | cons p rest ih =>
    obtain ⟨k1, v1⟩ := p
    by_cases h1 : k1 = k
    · subst h1
      simp [dset, dlookup, h, Ne.symm h]
    · by_cases h2 : k1 = k2 <;> simp [dset, dlookup, h1, h2, ih, Ne.symm h]

/-! ### Registry dictionary lemmas -/

theorem slookup_sremove_self (d : SDict) (a : Addr) :
    slookup (sremove d a) a = none := by
  induction d with
  | nil => rfl
  | cons p rest ih =>
    obtain ⟨a1, c1⟩ := p
    by_cases h : a1 = a
    · simpa [sremove, h] using ih
    · simp [sremove, h, slookup, ih]

theorem slookup_sremove_ne (d : SDict) (a a2 : Addr) (h : a ≠ a2) :
    slookup (sremove d a) a2 = slookup d a2 := by
  induction d with
  | nil => rfl
  | cons p rest ih =>
    obtain ⟨a1, c1⟩ := p
    by_cases h1 : a1 = a
    · subst h1
      simp [sremove, slookup, h, ih]
    · by_cases h2 : a1 = a2 <;> simp [sremove, slookup, h1, h2, ih, Ne.symm h]

theorem slookup_append (d e : SDict) (a : Addr) :
    slookup (d ++ e) a = ((slookup d a).rec (slookup e a) fun c => some c) := by
  induction d with
  | nil => rfl
  | cons p rest ih =>
    obtain ⟨a1, c1⟩ := p
    by_cases h : a1 = a <;> simp [slookup, h, ih]

theorem slookup_append_of_none (d e : SDict) (a : Addr)
    (h : slookup d a = none) : slookup (d ++ e) a = slookup e a := by
  rw [slookup_append, h]

theorem slookup_append_of_some (d e : SDict) (a : Addr) (c : CtxGenServerConfig)
    (h : slookup d a = some c) : slookup (d ++ e) a = some c := by
  rw [slookup_append, h]

/-! ### Registry scan lemmas -/

theorem get_scfgs_go_append (xs ys : List CtxGenServerConfig) (n : Int) (d : SDict) :
    get_scfgs_go (xs ++ ys) n d =
      (get_scfgs_go xs n d).bind fun p => get_scfgs_go ys p.1 p.2 := by
  induction xs generalizing n d with
  | nil => rfl
  | cons cfg rest ih =>
    simp only [List.cons_append, get_scfgs_go]
    cases h : slookup d (cfg.hostname, cfg.port) with
    | none => simp [ih]
    | some prev =>
      by_cases h1 : prev.type = cfg.type
      · simp [h1, Except.bind]
      · by_cases h2 : dictBeq prev.other_args cfg.other_args <;>
          simp [h1, h2, ih, Except.bind]

theorem get_scfgs_go_keeps (cfgs : List CtxGenServerConfig) (n n2 : Int)
    (R d : SDict) (a : Addr) (c : CtxGenServerConfig)
    (hok : get_scfgs_go cfgs n R = .ok (n2, d)) (h : slookup R a = some c) :
    slookup d a = some c := by
  induction cfgs generalizing n R with
  | nil =>
    simp only [get_scfgs_go, Except.ok.injEq, Prod.mk.injEq] at hok
    rw [← hok.2]; exact h
  | cons cfg rest ih =>
    simp only [get_scfgs_go] at hok
    cases hl : slookup R (cfg.hostname, cfg.port) with
    | none =>
      rw [hl] at hok
      exact ih _ _ hok (slookup_append_of_some R _ a c h)
    | some prev =>
      rw [hl] at hok
      by_cases h1 : prev.type = cfg.type
      · simp [h1] at hok
      · by_cases h2 : dictBeq prev.other_args cfg.other_args
        · simp only [h1, if_false, h2, if_true] at hok
          exact ih _ _ hok h
        · simp [h1, h2] at hok

theorem get_scfgs_go_all (cfgs : List CtxGenServerConfig) (n n2 : Int)
    (R d : SDict) (hok : get_scfgs_go cfgs n R = .ok (n2, d)) :
    ∀ cfg ∈ cfgs, (slookup d (cfg.hostname, cfg.port)).isSome = true := by
  induction cfgs generalizing n R with
  | nil => intro cfg hm; cases hm
  | cons cfg0 rest ih =>
    intro cfg hm
    simp only [get_scfgs_go] at hok
    cases hl : slookup R (cfg0.hostname, cfg0.port) with
    | none =>
      rw [hl] at hok
      rcases List.mem_cons.mp hm with h | h
      · subst h
        have : slookup (R ++ [((cfg.hostname, cfg.port), cfg)])
            (cfg.hostname, cfg.port) = some cfg := by
          rw [slookup_append_of_none _ _ _ hl]
          simp [slookup]
        rw [get_scfgs_go_keeps rest _ _ _ _ _ cfg hok this]
        rfl
      · exact ih _ _ hok cfg h
    | some prev =>
      rw [hl] at hok
      by_cases h1 : prev.type = cfg0.type
      · simp [h1] at hok
      · by_cases h2 : dictBeq prev.other_args cfg0.other_args
        · simp only [h1, if_false, h2, if_true] at hok
          rcases List.mem_cons.mp hm with h | h
          · subst h
            rw [get_scfgs_go_keeps rest _ _ _ _ _ prev hok hl]
            rfl
          · exact ih _ _ hok cfg h
        · simp [h1, h2] at hok

theorem get_scfgs_go_entries (cfgs : List CtxGenServerConfig) (n n2 : Int)
    (R d : SDict) (hok : get_scfgs_go cfgs n R = .ok (n2, d)) :
    ∀ p ∈ d, p ∈ R ∨ (p.2 ∈ cfgs ∧ p.1 = (p.2.hostname, p.2.port)) := by
  induction cfgs generalizing n R with
  | nil =>
    simp only [get_scfgs_go, Except.ok.injEq, Prod.mk.injEq] at hok
    intro p hp; rw [← hok.2] at hp; exact Or.inl hp
  | cons cfg rest ih =>
    intro p hp
    simp only [get_scfgs_go] at hok
    cases hl : slookup R (cfg.hostname, cfg.port) with
    | none =>
      rw [hl] at hok
      rcases ih _ _ hok p hp with h | h
      · rcases List.mem_append.mp h with h' | h'
        · exact Or.inl h'
        · simp only [List.mem_singleton] at h'
          subst h'
          exact Or.inr ⟨List.mem_cons_self _ _, rfl⟩
      · exact Or.inr ⟨List.mem_cons_of_mem _ h.1, h.2⟩
    | some prev =>
      rw [hl] at hok
      by_cases h1 : prev.type = cfg.type
      · simp [h1] at hok
      · by_cases h2 : dictBeq prev.other_args cfg.other_args
        · simp only [h1, if_false, h2, if_true] at hok
          rcases ih _ _ hok p hp with h | h
          · exact Or.inl h
          · exact Or.inr ⟨List.mem_cons_of_mem _ h.1, h.2⟩
        · simp [h1, h2] at hok

theorem ok_bind {α β : Type} (a : α) (f : α → Except Err β) :
    Bind.bind (Except.ok a) f = f a := rfl

theorem slookup_append_single_ne (R : SDict) (a b : Addr) (c : CtxGenServerConfig)
    (h : a ≠ b) : slookup (R ++ [(a, c)]) b = slookup R b := by
  rw [slookup_append]
  cases hR : slookup R b with
  | none => simp [slookup, h]
  | some c0 => rfl

/-- The walk dictionary `D` (popped as addresses are consumed) stays
complementary to the registry dictionary `R` (filled as addresses are first
seen) on the addresses of the remaining configs; hence the widths of the
non-skipped intervals sum to exactly what the registry scan adds. -/
theorem reg_walk_sum (cfgs : List CtxGenServerConfig) :
    ∀ (n0 : Int) (R : SDict) (n : Int) (dfin : SDict) (idx : Nat) (o : Int) (D : SDict),
      get_scfgs_go cfgs n0 R = .ok (n, dfin) →
      (∀ cfg ∈ cfgs, (slookup D (cfg.hostname, cfg.port)).isSome
          = !(slookup R (cfg.hostname, cfg.port)).isSome) →
      isum (intervalsFrom cfgs D idx o) = n - n0 := by
  induction cfgs with
  | nil =>
    intro n0 R n dfin idx o D hok hinv
    simp only [get_scfgs_go, Except.ok.injEq, Prod.mk.injEq] at hok
    simp [intervalsFrom, isum, ← hok.1]
  | cons cfg rest ih =>
    intro n0 R n dfin idx o D hok hinv
    have hhead := hinv cfg (List.mem_cons_self _ _)
    simp only [get_scfgs_go] at hok
    cases hR : slookup R (cfg.hostname, cfg.port) with
    | some prev =>
      rw [hR] at hok
      rw [hR] at hhead
      simp only [Option.isSome_some, Bool.not_true] at hhead
      have hD : slookup D (cfg.hostname, cfg.port) = none := by
        cases hD' : slookup D (cfg.hostname, cfg.port) with
        | none => rfl
        | some c0 => rw [hD'] at hhead; simp at hhead
      by_cases h1 : prev.type = cfg.type
      · simp [h1] at hok
      · by_cases h2 : dictBeq prev.other_args cfg.other_args
        · simp only [h1, if_false, h2, if_true] at hok
          simp only [intervalsFrom, hD]
          exact ih n0 R n dfin (idx + 1) o D hok
            (fun c hc => hinv c (List.mem_cons_of_mem _ hc))
        · simp [h1, h2] at hok
    | none =>
      rw [hR] at hok
      rw [hR] at hhead
      simp only [Option.isSome_none, Bool.not_false] at hhead
      obtain ⟨c0, hD⟩ := Option.isSome_iff_exists.mp hhead
      simp only [intervalsFrom, hD, isum, List.foldr]
      have hrec := ih (n0 + cfg.instance_num_ranks)
        (R ++ [((cfg.hostname, cfg.port), cfg)]) n dfin (idx + 1)
        (o + cfg.instance_num_ranks) (sremove D (cfg.hostname, cfg.port)) hok ?_
      · have : isum (intervalsFrom rest (sremove D (cfg.hostname, cfg.port))
            (idx + 1) (o + cfg.instance_num_ranks)) = n - (n0 + cfg.instance_num_ranks) := hrec
        simp only [isum] at this
        omega
      · intro c hc
        by_cases ha : (c.hostname, c.port) = (cfg.hostname, cfg.port)
        · rw [ha, slookup_sremove_self]
          have : slookup (R ++ [((cfg.hostname, cfg.port), cfg)])
              (cfg.hostname, cfg.port) = some cfg := by
            rw [slookup_append_of_none _ _ _ hR]
            simp [slookup]
          rw [this]
          rfl
        · rw [slookup_sremove_ne _ _ _ (fun hh => ha hh.symm),
            slookup_append_single_ne _ _ _ _ (fun hh => ha hh.symm)]
          exact hinv c (List.mem_cons_of_mem _ hc)

/-! ### Interval lemmas -/

theorem intervals_start_ge (cfgs : List CtxGenServerConfig) :
    ∀ (sd : SDict) (idx : Nat) (o : Int),
      (∀ cfg ∈ cfgs, 0 ≤ cfg.instance_num_ranks) →
      ∀ e ∈ intervalsFrom cfgs sd idx o, o ≤ e.2.1 := by
  induction cfgs with
  | nil => intro sd idx o hc e he; cases he
  | cons cfg rest ih =>
    intro sd idx o hc e he
    simp only [intervalsFrom] at he
    cases hl : slookup sd (cfg.hostname, cfg.port) with
    | none =>
      rw [hl] at he
      exact ih sd (idx + 1) o (fun c h => hc c (List.mem_cons_of_mem _ h)) e he
    | some c0 =>
      rw [hl] at he
      rcases List.mem_cons.mp he with h | h
      · subst h; exact le_refl o
      · have h0 : 0 ≤ cfg.instance_num_ranks := hc cfg (List.mem_cons_self _ _)
        have := ih (sremove sd (cfg.hostname, cfg.port)) (idx + 1)
          (o + cfg.instance_num_ranks) (fun c hh => hc c (List.mem_cons_of_mem _ hh)) e h
        omega

theorem intervals_count_nonneg (cfgs : List CtxGenServerConfig) :
    ∀ (sd : SDict) (idx : Nat) (o : Int),
      (∀ cfg ∈ cfgs, 0 ≤ cfg.instance_num_ranks) →
      ∀ e ∈ intervalsFrom cfgs sd idx o, 0 ≤ e.2.2 := by
  induction cfgs with
  | nil => intro sd idx o hc e he; cases he
  | cons cfg rest ih =>
    intro sd idx o hc e he
    simp only [intervalsFrom] at he
    cases hl : slookup sd (cfg.hostname, cfg.port) with
    | none =>
      rw [hl] at he
      exact ih sd (idx + 1) o (fun c h => hc c (List.mem_cons_of_mem _ h)) e he
    | some c0 =>
      rw [hl] at he
      rcases List.mem_cons.mp he with h | h
      · subst h; exact hc cfg (List.mem_cons_self _ _)
      · exact ih (sremove sd (cfg.hostname, cfg.port)) (idx + 1)
          (o + cfg.instance_num_ranks) (fun c hh => hc c (List.mem_cons_of_mem _ hh)) e h

theorem isum_nil : isum [] = 0 := rfl

theorem isum_cons (e : Nat × Int × Int) (l : List (Nat × Int × Int)) :
    isum (e :: l) = e.2.2 + isum l := rfl

theorem isum_nonneg (l : List (Nat × Int × Int)) (h : ∀ e ∈ l, 0 ≤ e.2.2) :
    0 ≤ isum l := by
  induction l with
  | nil => simp [isum]
  | cons e rest ih =>
    have h1 := h e (List.mem_cons_self _ _)
    have h2 := ih fun x hx => h x (List.mem_cons_of_mem _ hx)
    simp only [isum, List.foldr] at h2 ⊢
    omega

theorem intervals_cover (cfgs : List CtxGenServerConfig) :
    ∀ (sd : SDict) (idx : Nat) (o : Int) (r : Int),
      (∀ cfg ∈ cfgs, 0 ≤ cfg.instance_num_ranks) →
      ((∃ e ∈ intervalsFrom cfgs sd idx o, covers e r) ↔
        o ≤ r ∧ r < o + isum (intervalsFrom cfgs sd idx o)) := by
  induction cfgs with
  | nil =>
    intro sd idx o r hc
    simp [intervalsFrom, isum]
  | cons cfg rest ih =>
    intro sd idx o r hc
    have htail : ∀ c ∈ rest, 0 ≤ c.instance_num_ranks :=
      fun c h => hc c (List.mem_cons_of_mem _ h)
    simp only [intervalsFrom]
    cases hl : slookup sd (cfg.hostname, cfg.port) with
    | none => exact ih sd (idx + 1) o r htail
    | some c0 =>
      have h0 : 0 ≤ cfg.instance_num_ranks := hc cfg (List.mem_cons_self _ _)
      have hrest := ih (sremove sd (cfg.hostname, cfg.port)) (idx + 1)
        (o + cfg.instance_num_ranks) r htail
      have hnn : 0 ≤ isum (intervalsFrom rest (sremove sd (cfg.hostname, cfg.port))
          (idx + 1) (o + cfg.instance_num_ranks)) :=
        isum_nonneg _ (intervals_count_nonneg rest _ _ _ htail)
      rw [isum_cons]
      have hred : ((idx, o, cfg.instance_num_ranks) : Nat × Int × Int).2.2
          = cfg.instance_num_ranks := rfl
      rw [hred]
      constructor
      · intro ⟨e, he, hcov⟩
        rcases List.mem_cons.mp he with h | h
        · subst h
          have ha : o ≤ r := hcov.1
          have hb : r < o + cfg.instance_num_ranks := hcov.2
          omega
        · have := hrest.mp ⟨e, h, hcov⟩
          omega
      · intro ⟨ha, hb⟩
        by_cases hr : r < o + cfg.instance_num_ranks
        · exact ⟨(idx, o, cfg.instance_num_ranks), List.mem_cons_self _ _, ⟨ha, hr⟩⟩
        · obtain ⟨e, he, hcov⟩ := hrest.mpr (by omega)
          exact ⟨e, List.mem_cons_of_mem _ he, hcov⟩

theorem intervals_unique (cfgs : List CtxGenServerConfig) :
    ∀ (sd : SDict) (idx : Nat) (o : Int) (r : Int),
      (∀ cfg ∈ cfgs, 0 ≤ cfg.instance_num_ranks) →
      ∀ e1 ∈ intervalsFrom cfgs sd idx o, ∀ e2 ∈ intervalsFrom cfgs sd idx o,
        covers e1 r → covers e2 r → e1 = e2 := by
  induction cfgs with
  | nil => intro sd idx o r hc e1 h1; cases h1
  | cons cfg rest ih =>
    intro sd idx o r hc e1 h1 e2 h2 hc1 hc2
    have htail : ∀ c ∈ rest, 0 ≤ c.instance_num_ranks :=
      fun c h => hc c (List.mem_cons_of_mem _ h)
    simp only [intervalsFrom] at h1 h2
    cases hl : slookup sd (cfg.hostname, cfg.port) with
    | none =>
      rw [hl] at h1 h2
      exact ih sd (idx + 1) o r htail e1 h1 e2 h2 hc1 hc2
    | some c0 =>
      rw [hl] at h1 h2
      rcases List.mem_cons.mp h1 with ha1 | ha1 <;>
        rcases List.mem_cons.mp h2 with ha2 | ha2
      · rw [ha1, ha2]
      · subst ha1
        have := intervals_start_ge rest _ _ _ htail e2 ha2
        obtain ⟨x1, x2⟩ := hc1
        obtain ⟨y1, y2⟩ := hc2
        simp only at x1 x2
        omega
      · subst ha2
        have := intervals_start_ge rest _ _ _ htail e1 ha1
        obtain ⟨x1, x2⟩ := hc1
        obtain ⟨y1, y2⟩ := hc2
        simp only at y1 y2
        omega
      · exact ih _ (idx + 1) _ r htail e1 ha1 e2 ha2 hc1 hc2

theorem intervals_head_start (cfgs : List CtxGenServerConfig) :
    ∀ (sd : SDict) (idx : Nat) (o : Int) (e : Nat × Int × Int),
      (intervalsFrom cfgs sd idx o).head? = some e → e.2.1 = o := by
  induction cfgs with
  | nil => intro sd idx o e h; simp [intervalsFrom] at h
  | cons cfg rest ih =>
    intro sd idx o e h
    simp only [intervalsFrom] at h
    cases hl : slookup sd (cfg.hostname, cfg.port) with
    | none =>
      rw [hl] at h
      exact ih sd (idx + 1) o e h
    | some c0 =>
      rw [hl] at h
      simp only [List.head?_cons, Option.some.injEq] at h
      rw [← h]

theorem intervals_chain (cfgs : List CtxGenServerConfig) :
    ∀ (sd : SDict) (idx : Nat) (o : Int),
      List.Chain' (fun a b : Nat × Int × Int => a.2.1 + a.2.2 = b.2.1)
        (intervalsFrom cfgs sd idx o) := by
  induction cfgs with
  | nil => intro sd idx o; simp [intervalsFrom]
  | cons cfg rest ih =>
    intro sd idx o
    simp only [intervalsFrom]
    cases hl : slookup sd (cfg.hostname, cfg.port) with
    | none => exact ih sd (idx + 1) o
    | some c0 =>
      rw [List.chain'_cons']
      refine ⟨?_, ih _ (idx + 1) _⟩
      intro b hb
      rw [intervals_head_start rest _ _ _ b hb]

theorem intervals_get (cfgs : List CtxGenServerConfig) :
    ∀ (sd : SDict) (idx : Nat) (o : Int),
      ∀ e ∈ intervalsFrom cfgs sd idx o,
        ∃ k, ∃ cfg, cfgs[k]? = some cfg ∧ e.1 = idx + k ∧
          cfg.instance_num_ranks = e.2.2 := by
  induction cfgs with
  | nil => intro sd idx o e he; cases he
  | cons cfg rest ih =>
    intro sd idx o e he
    simp only [intervalsFrom] at he
    cases hl : slookup sd (cfg.hostname, cfg.port) with
    | none =>
      rw [hl] at he
      obtain ⟨k, c, hg, hi, hn⟩ := ih sd (idx + 1) o e he
      exact ⟨k + 1, c, by simpa using hg, by omega, hn⟩
    | some c0 =>
      rw [hl] at he
      rcases List.mem_cons.mp he with h | h
      · subst h
        exact ⟨0, cfg, by simp, by simp, rfl⟩
      · obtain ⟨k, c, hg, hi, hn⟩ := ih _ (idx + 1) _ e h
        exact ⟨k + 1, c, by simpa using hg, by omega, hn⟩

/-! ### Walk lemmas -/

/-- Once the caller's rank lies strictly below the running offset, no later
(nonnegative-width) instance can match it, so the recorded fields survive to
the end of the walk. -/
theorem walk_pres (gr : Int) (cfgs : List CtxGenServerConfig) :
    ∀ (idx : Nat) (sd : SDict) (s : WalkState),
      (∀ cfg ∈ cfgs, 0 ≤ cfg.instance_num_ranks) →
      gr < s.offset →
      (walk gr cfgs idx sd s).is_leader = s.is_leader ∧
      (walk gr cfgs idx sd s).instance_idx = s.instance_idx ∧
      (walk gr cfgs idx sd s).instance_sub_rank = s.instance_sub_rank := by
  induction cfgs with
  | nil => intro idx sd s hc hr; exact ⟨rfl, rfl, rfl⟩
  | cons cfg rest ih =>
    intro idx sd s hc hr
    have htail : ∀ c ∈ rest, 0 ≤ c.instance_num_ranks :=
      fun c h => hc c (List.mem_cons_of_mem _ h)
    have h0 : 0 ≤ cfg.instance_num_ranks := hc cfg (List.mem_cons_self _ _)
    simp only [walk]
    cases hl : slookup sd (cfg.hostname, cfg.port) with
    | none => exact ih (idx + 1) sd s htail hr
    | some c0 =>
      rw [if_neg (by omega)]
      exact ih (idx + 1) _ _ htail (by simp only; omega)

/-- If the caller's rank falls in the interval of a non-skipped instance,
the walk records that instance's index, the rank minus the instance's
starting offset, and leadership exactly when the rank equals the offset. -/
theorem walk_finds (gr : Int) (cfgs : List CtxGenServerConfig) :
    ∀ (idx : Nat) (sd : SDict) (s : WalkState) (e : Nat × Int × Int),
      (∀ cfg ∈ cfgs, 0 ≤ cfg.instance_num_ranks) →
      e ∈ intervalsFrom cfgs sd idx s.offset →
      covers e gr →
      (walk gr cfgs idx sd s).is_leader = (s.is_leader || decide (gr = e.2.1)) ∧
      (walk gr cfgs idx sd s).instance_idx = e.1 ∧
      (walk gr cfgs idx sd s).instance_sub_rank = gr - e.2.1 := by
  induction cfgs with
  | nil => intro idx sd s e hc he; cases he
  | cons cfg rest ih =>
    intro idx sd s e hc he hcov
    have htail : ∀ c ∈ rest, 0 ≤ c.instance_num_ranks :=
      fun c h => hc c (List.mem_cons_of_mem _ h)
    have h0 : 0 ≤ cfg.instance_num_ranks := hc cfg (List.mem_cons_self _ _)
    simp only [intervalsFrom] at he
    simp only [walk]
    cases hl : slookup sd (cfg.hostname, cfg.port) with
    | none =>
      rw [hl] at he
      exact ih (idx + 1) sd s e htail he hcov
    | some c0 =>
      rw [hl] at he
      rcases List.mem_cons.mp he with h | h
      · subst h
        have ha : s.offset ≤ gr := hcov.1
        have hb : gr < s.offset + cfg.instance_num_ranks := hcov.2
        rw [if_pos ⟨ha, hb⟩]
        have := walk_pres gr rest (idx + 1) (sremove sd (cfg.hostname, cfg.port))
          { is_leader := s.is_leader || decide (gr = s.offset),
            offset := s.offset + cfg.instance_num_ranks,
            instance_idx := idx,
            instance_sub_rank := gr - s.offset }
          htail (by simp only; omega)
        exact this
      · have hge := intervals_start_ge rest _ (idx + 1)
          (s.offset + cfg.instance_num_ranks) htail e h
        have ha : e.2.1 ≤ gr := hcov.1
        rw [if_neg (by omega)]
        exact ih (idx + 1) _ _ e htail h hcov

theorem intervals_count_lb (b : Int) (cfgs : List CtxGenServerConfig) :
    ∀ (sd : SDict) (idx : Nat) (o : Int),
      (∀ cfg ∈ cfgs, b ≤ cfg.instance_num_ranks) →
      ∀ e ∈ intervalsFrom cfgs sd idx o, b ≤ e.2.2 := by
  induction cfgs with
  | nil => intro sd idx o hc e he; cases he
  | cons cfg rest ih =>
    intro sd idx o hc e he
    simp only [intervalsFrom] at he
    cases hl : slookup sd (cfg.hostname, cfg.port) with
    | none =>
      rw [hl] at he
      exact ih sd (idx + 1) o (fun c h => hc c (List.mem_cons_of_mem _ h)) e he
    | some c0 =>
      rw [hl] at he
      rcases List.mem_cons.mp he with h | h
      · subst h; exact hc cfg (List.mem_cons_self _ _)
      · exact ih _ (idx + 1) _ (fun c hh => hc c (List.mem_cons_of_mem _ hh)) e h

theorem intervals_end_le (cfgs : List CtxGenServerConfig) :
    ∀ (sd : SDict) (idx : Nat) (o : Int),
      (∀ cfg ∈ cfgs, 0 ≤ cfg.instance_num_ranks) →
      ∀ e ∈ intervalsFrom cfgs sd idx o,
        e.2.1 + e.2.2 ≤ o + isum (intervalsFrom cfgs sd idx o) := by
  induction cfgs with
  | nil => intro sd idx o hc e he; cases he
  | cons cfg rest ih =>
    intro sd idx o hc e he
    have htail : ∀ c ∈ rest, 0 ≤ c.instance_num_ranks :=
      fun c h => hc c (List.mem_cons_of_mem _ h)
    simp only [intervalsFrom] at he ⊢
    cases hl : slookup sd (cfg.hostname, cfg.port) with
    | none =>
      rw [hl] at he
      exact ih sd (idx + 1) o htail e he
    | some c0 =>
      rw [hl] at he
      rw [isum_cons]
      have hred : ((idx, o, cfg.instance_num_ranks) : Nat × Int × Int).2.2
          = cfg.instance_num_ranks := rfl
      rw [hred]
      have hnn : 0 ≤ isum (intervalsFrom rest (sremove sd (cfg.hostname, cfg.port))
          (idx + 1) (o + cfg.instance_num_ranks)) :=
        isum_nonneg _ (intervals_count_nonneg rest _ _ _ htail)
      rcases List.mem_cons.mp he with h | h
      · subst h
        have h1 : ((idx, o, cfg.instance_num_ranks) : Nat × Int × Int).2.1 = o := rfl
        rw [h1, hred]
        omega
      · have := ih _ (idx + 1) (o + cfg.instance_num_ranks) htail e h
        omega

theorem slookup_mem (sd : SDict) (a : Addr) (c : CtxGenServerConfig)
    (h : slookup sd a = some c) : (a, c) ∈ sd := by
  induction sd with
  | nil => cases h
  | cons p rest ih =>
    obtain ⟨a1, c1⟩ := p
    by_cases h1 : a1 = a
    · subst h1
      have hcc : c1 = c := by simpa [slookup] using h
      subst hcc
      exact List.mem_cons_self _ _
    · simp only [slookup, if_neg h1] at h
      exact List.mem_cons_of_mem _ (ih h)

/-- The interval widths of the walk sum to the registry total, and the walk
dictionary starts out holding every address of the sequence. -/
theorem isum_intervals_eq_total (cfgs : List CtxGenServerConfig) (T : Int)
    (d : SDict) (hreg : get_server_configs_dict cfgs = .ok (T, d)) :
    isum (intervalsFrom cfgs d 0 0) = T := by
  have h := reg_walk_sum cfgs 0 [] T d 0 0 d hreg ?_
  · omega
  · intro cfg hm
    rw [get_scfgs_go_all cfgs 0 T [] d hreg cfg hm]
    rfl

/-- If the caller's rank is covered by a non-skipped instance's interval,
`split_world_comm` (called with the registry total as global size) returns
exactly that instance's index, the local rank, and leadership at local rank
zero. -/
theorem split_record (cfgs : List CtxGenServerConfig) (T : Int) (d : SDict)
    (r : Int) (e : Nat × Int × Int)
    (hreg : get_server_configs_dict cfgs = .ok (T, d))
    (hc : ∀ cfg ∈ cfgs, 0 ≤ cfg.instance_num_ranks)
    (he : e ∈ intervalsFrom cfgs d 0 0) (hcov : covers e r) :
    split_world_comm T r cfgs = .ok (decide (r = e.2.1), e.1, r - e.2.1) := by
  have hw := walk_finds r cfgs 0 d {} e hc he hcov
  unfold split_world_comm
  rw [hreg]
  show (if T = T then _ else _ : Except Err (Bool × Nat × Int)) = _
  rw [if_pos rfl]
  obtain ⟨h1, h2, h3⟩ := hw
  simp only [Bool.false_or] at h1
  rw [h1, h2, h3]
  rfl

/-- Inverting a successful `extract_ctx_gen_cfgs`: every produced config has
the requested role and carries the residual section (minus `num_instances`
and `urls`) as `other_args`. -/
theorem extract_ctx_gen_ok_args (ty : SType) (d : Dict)
    (l : List CtxGenServerConfig) (h : extract_ctx_gen_cfgs ty d = .ok l) :
    ∀ c ∈ l, c.type = ty ∧
      c.other_args = derase (derase d "num_instances") "urls" := by
  unfold extract_ctx_gen_cfgs at h
  cases hty : dcontains d "type" with
  | true => rw [hty] at h; cases h
  | false =>
    rw [hty] at h
    simp only [Bool.false_eq_true, if_false] at h
    cases hni : getIntField d "num_instances" 1 with
    | error e => rw [hni] at h; cases h
    | ok n =>
      rw [hni] at h
      simp only [ok_bind] at h
      cases hpairs : resolve_url_pairs n (dlookup d "urls") with
      | error e => rw [hpairs] at h; cases h
      | ok pairs =>
        rw [hpairs] at h
        simp only [ok_bind] at h
        cases htp : getIntField (derase (derase d "num_instances") "urls")
            "tensor_parallel_size" 1 with
        | error e => rw [htp] at h; cases h
        | ok tp =>
          rw [htp] at h
          simp only [ok_bind] at h
          cases hpp : getIntField (derase (derase d "num_instances") "urls")
              "pipeline_parallel_size" 1 with
          | error e => rw [hpp] at h; cases h
          | ok pp =>
            rw [hpp] at h
            simp only [ok_bind, pure, Except.pure, Except.ok.injEq] at h
            intro c hc
            rw [← h] at hc
            obtain ⟨hp, hmem, hceq⟩ := List.mem_map.mp hc
            rw [← hceq]
            exact ⟨rfl, rfl⟩

/-! ### Claim theorems -/

/-- A context server at `h:1` with two ranks (used as a concrete input). -/
def cfgCtxH : CtxGenServerConfig :=
  { type := SType.ctx, hostname := some "h", port := some 1,
    instance_num_ranks := 2, other_args := [] }

/-- A generation server co-located at `h:1` with three ranks (concrete
input). -/
def cfgGenH : CtxGenServerConfig :=
  { type := SType.gen, hostname := some "h", port := some 1,
    instance_num_ranks := 3, other_args := [] }

/-- C2: `split_world_comm` fails with the topology-size-mismatch error if
and only if the global process count differs from the total worker count
computed by the registry (the sum of `instance_num_ranks` over
address-deduplicated instances); when they are equal it proceeds to
partition. -/
theorem C2_size_mismatch_iff (gs gr : Int) (cfgs : List CtxGenServerConfig)
    (n : Int) (d : SDict) (hreg : get_server_configs_dict cfgs = .ok (n, d)) :
    (split_world_comm gs gr cfgs = .error (Err.topologySizeMismatch gs n) ↔ gs ≠ n)
    ∧ (gs = n → (split_world_comm gs gr cfgs).isOk = true) := by
  have hsplit : split_world_comm gs gr cfgs =
      (if gs = n then
        Except.ok ((walk gr cfgs 0 d {}).is_leader, (walk gr cfgs 0 d {}).instance_idx,
          (walk gr cfgs 0 d {}).instance_sub_rank)
      else Except.error (Err.topologySizeMismatch gs n)) := by
    unfold split_world_comm
    rw [hreg]
    rfl
  rw [hsplit]
  by_cases hgs : gs = n
  · simp [hgs, Except.isOk, Except.toBool]
  · simp [hgs]

theorem C2_size_mismatch_iff_witness :
    split_world_comm 3 0 [cfgCtxH] = .error (Err.topologySizeMismatch 3 2) := by
  have h := C2_size_mismatch_iff 3 0 [cfgCtxH] 2
    [((some "h", some 1), cfgCtxH)] rfl
  exact h.1.mpr (by decide)

/-- C3: in the registry scan, a repeated address under the same role fails
with the duplicated-server error; under a different role it is accepted
exactly when the two configs' `other_args` are deeply equal (else the
mixed-args error), and an accepted duplicate contributes nothing: the scan
result is the same as if the duplicate entry were absent (so its
`instance_num_ranks` is not added to the total a second time). -/
theorem C3_registry_dedup (pre post : List CtxGenServerConfig)
    (cfg prev : CtxGenServerConfig) (n : Int) (d : SDict)
    (hpre : get_scfgs_go pre 0 [] = .ok (n, d))
    (hprev : slookup d (cfg.hostname, cfg.port) = some prev) :
    (prev.type = cfg.type →
      get_server_configs_dict (pre ++ cfg :: post)
        = .error (Err.duplicateServer cfg.type (cfg.hostname, cfg.port)))
    ∧ (prev.type ≠ cfg.type → dictBeq prev.other_args cfg.other_args = false →
      get_server_configs_dict (pre ++ cfg :: post)
        = .error (Err.mixedRoleArgsConflict (cfg.hostname, cfg.port)
            prev.other_args cfg.other_args))
    ∧ (prev.type ≠ cfg.type → dictBeq prev.other_args cfg.other_args = true →
      get_server_configs_dict (pre ++ cfg :: post)
        = get_server_configs_dict (pre ++ post)) := by
  have happ : ∀ xs, get_server_configs_dict (pre ++ xs) = get_scfgs_go xs n d := by
    intro xs
    unfold get_server_configs_dict
    rw [get_scfgs_go_append, hpre]
    rfl
  refine ⟨?_, ?_, ?_⟩
  · intro hty
    rw [happ]
    simp only [get_scfgs_go, hprev, hty, if_true]
  · intro hty hargs
    rw [happ]
    simp only [get_scfgs_go, hprev, if_neg hty, hargs, Bool.false_eq_true, if_false]
  · intro hty hargs
    rw [happ, happ]
    simp only [get_scfgs_go, hprev, if_neg hty, hargs, if_true]

theorem C3_registry_dedup_witness :
    get_server_configs_dict [cfgCtxH, cfgGenH]
      = get_server_configs_dict [cfgCtxH] := by
  have h := C3_registry_dedup [cfgCtxH] [] cfgGenH cfgCtxH 2
    [((some "h", some 1), cfgCtxH)] rfl rfl
  exact h.2.2 (by decide) rfl

/-- Scenario A context section: two instances at `h1:100`, `h2:200`,
tensor-parallel size 2. -/
def ctxSectionA : Dict :=
  [("num_instances", .vint 2),
   ("urls", .vlist [.vstr "h1:100", .vstr "h2:200"]),
   ("tensor_parallel_size", .vint 2)]

/-- Scenario A generation section: one instance at `h3:300`,
tensor-parallel size 4. -/
def genSectionA : Dict :=
  [("num_instances", .vint 1),
   ("urls", .vlist [.vstr "h3:300"]),
   ("tensor_parallel_size", .vint 4)]

/-- The first Scenario A context instance. -/
def cfgA1 : CtxGenServerConfig :=
  { type := SType.ctx, hostname := some "h1", port := some 100,
    instance_num_ranks := 2, other_args := [("tensor_parallel_size", .vint 2)] }

/-- The second Scenario A context instance. -/
def cfgA2 : CtxGenServerConfig :=
  { type := SType.ctx, hostname := some "h2", port := some 200,
    instance_num_ranks := 2, other_args := [("tensor_parallel_size", .vint 2)] }

/-- The Scenario A generation instance. -/
def cfgA3 : CtxGenServerConfig :=
  { type := SType.gen, hostname := some "h3", port := some 300,
    instance_num_ranks := 4, other_args := [("tensor_parallel_size", .vint 4)] }

/-- The server-config sequence composed from Scenario A. -/
def serverConfigsA : List CtxGenServerConfig := [cfgA1, cfgA2, cfgA3]

/-- The round-robin context router of Scenario A. -/
def ctxRouterA : RouterConfig :=
  { type := .vstr "round_robin", args := [],
    server_role := some ServerRole.CONTEXT }

/-- The round-robin generation router of Scenario A. -/
def genRouterA : RouterConfig :=
  { type := .vstr "round_robin", args := [],
    server_role := some ServerRole.GENERATION }

/-- The full composed configuration of Scenario A. -/
def disaggConfigA : DisaggServerConfig :=
  { server_configs := serverConfigsA, hostname := "localhost", port := 8000,
    ctx_router_config := some ctxRouterA,
    gen_router_config := some genRouterA,
    conditional_disagg_config := none, max_retries := 3 }

/-- The registry dictionary of Scenario A. -/
def serverDictA : SDict :=
  [((some "h1", some 100),
    { type := SType.ctx, hostname := some "h1", port := some 100,
      instance_num_ranks := 2, other_args := [("tensor_parallel_size", .vint 2)] }),
   ((some "h2", some 200),
    { type := SType.ctx, hostname := some "h2", port := some 200,
      instance_num_ranks := 2, other_args := [("tensor_parallel_size", .vint 2)] }),
   ((some "h3", some 300),
    { type := SType.gen, hostname := some "h3", port := some 300,
      instance_num_ranks := 4, other_args := [("tensor_parallel_size", .vint 4)] })]

/-- C5: Scenario A end to end: composing the configuration with top-level
`max_retries = 3`, a context section with two instances at `h1:100`, `h2:200`
and tensor-parallel size 2, and a generation section with one instance at
`h3:300` and tensor-parallel size 4, yields a total of 8 workers; rank 0
maps to instance 0 / local rank 0 / leader, rank 2 to instance 1 / local
rank 0 / leader, rank 4 to instance 2 / local rank 0 / leader, and rank 7
to instance 2 / local rank 3, not leader. -/
theorem C5_scenarioA :
    (extract_disagg_cfg "localhost" 8000 3 (some ctxSectionA)
        (some genSectionA) none [] = .ok disaggConfigA
      ∧ disaggConfigA.server_configs = serverConfigsA
      ∧ disaggConfigA.max_retries = 3)
    ∧ get_server_configs_dict serverConfigsA = .ok (8, serverDictA)
    ∧ split_world_comm 8 0 serverConfigsA = .ok (true, 0, 0)
    ∧ split_world_comm 8 2 serverConfigsA = .ok (true, 1, 0)
    ∧ split_world_comm 8 4 serverConfigsA = .ok (true, 2, 0)
    ∧ split_world_comm 8 7 serverConfigsA = .ok (false, 2, 3) :=
  ⟨⟨rfl, rfl, rfl⟩, rfl, rfl, rfl, rfl, rfl⟩

/-- C1, amended with nonnegative instance widths (nothing in the registry
validates positivity, so the claim fails for negative
`instance_num_ranks`, see the counterexample): for a server-config list
accepted by the registry with total `T`, and a rank `r` in `[0, T)`, the
offset walk covers `r` by exactly one non-skipped instance interval, records
that instance's sequence position and `r` minus its starting offset, the
intervals are contiguous, pairwise disjoint, within `[0, T)`, and their
widths sum to `T`. -/
theorem C1_offset_walk_partition (cfgs : List CtxGenServerConfig) (T : Int)
    (d : SDict) (r : Int)
    (hreg : get_server_configs_dict cfgs = .ok (T, d))
    (hc : ∀ cfg ∈ cfgs, 0 ≤ cfg.instance_num_ranks)
    (hr0 : 0 ≤ r) (hrT : r < T) :
    (∃ e ∈ intervalsFrom cfgs d 0 0, covers e r)
    ∧ (∀ e1 ∈ intervalsFrom cfgs d 0 0, ∀ e2 ∈ intervalsFrom cfgs d 0 0,
        covers e1 r → covers e2 r → e1 = e2)
    ∧ (∀ e ∈ intervalsFrom cfgs d 0 0, covers e r →
        split_world_comm T r cfgs = .ok (decide (r = e.2.1), e.1, r - e.2.1))
    ∧ (∀ e ∈ intervalsFrom cfgs d 0 0, ∃ cfg, cfgs[e.1]? = some cfg ∧
        cfg.instance_num_ranks = e.2.2)
    ∧ List.Chain' (fun a b : Nat × Int × Int => a.2.1 + a.2.2 = b.2.1)
        (intervalsFrom cfgs d 0 0)
    ∧ (∀ e ∈ intervalsFrom cfgs d 0 0, 0 ≤ e.2.1 ∧ e.2.1 + e.2.2 ≤ T)
    ∧ isum (intervalsFrom cfgs d 0 0) = T := by
  have hsum := isum_intervals_eq_total cfgs T d hreg
  refine ⟨?_, ?_, ?_, ?_, intervals_chain cfgs d 0 0, ?_, hsum⟩
  · exact (intervals_cover cfgs d 0 0 r hc).mpr (by rw [hsum]; omega)
  · exact fun e1 h1 e2 h2 hc1 hc2 =>
      intervals_unique cfgs d 0 0 r hc e1 h1 e2 h2 hc1 hc2
  · exact fun e he hcov => split_record cfgs T d r e hreg hc he hcov
  · intro e he
    obtain ⟨k, cfg, hget, hidx, hnum⟩ := intervals_get cfgs d 0 0 e he
    refine ⟨cfg, ?_, hnum⟩
    rw [hidx]
    simpa using hget
  · intro e he
    have h1 := intervals_start_ge cfgs d 0 0 hc e he
    have h2 := intervals_end_le cfgs d 0 0 hc e he
    rw [hsum] at h2
    omega

/-- A generation server at `k:2` with two ranks (concrete input). -/
def cfgGenK : CtxGenServerConfig :=
  { type := SType.gen, hostname := some "k", port := some 2,
    instance_num_ranks := 2, other_args := [] }

theorem C1_offset_walk_partition_witness :
    ∃ e ∈ intervalsFrom [cfgCtxH, cfgGenK]
        [((some "h", some 1), cfgCtxH), ((some "k", some 2), cfgGenK)] 0 0,
      covers e 3 :=
  (C1_offset_walk_partition [cfgCtxH, cfgGenK] 4
    [((some "h", some 1), cfgCtxH), ((some "k", some 2), cfgGenK)] 3
    rfl (by decide) (by decide) (by decide)).1

/-- A context server at `h1:1` with width 4 (concrete input with an invalid
sibling). -/
def cfgNegA : CtxGenServerConfig :=
  { type := SType.ctx, hostname := some "h1", port := some 1,
    instance_num_ranks := 4, other_args := [] }

/-- A context server at `h2:2` with *negative* width, which the registry
accepts. -/
def cfgNegB : CtxGenServerConfig :=
  { type := SType.ctx, hostname := some "h2", port := some 2,
    instance_num_ranks := -2, other_args := [] }

/-- A context server at `h3:3` with width 2 (concrete input). -/
def cfgNegC : CtxGenServerConfig :=
  { type := SType.ctx, hostname := some "h3", port := some 3,
    instance_num_ranks := 2, other_args := [] }

/-- The registry dictionary produced for the negative-width list. -/
def dNeg : SDict :=
  [((some "h1", some 1), cfgNegA), ((some "h2", some 2), cfgNegB),
   ((some "h3", some 3), cfgNegC)]

/-- C1 counterexample: the list with widths `4, -2, 2` passes registry
validation with total `T = 4`, yet for rank `r = 2` two distinct non-skipped
instance intervals of the offset walk both contain `r`, so the intervals are
not pairwise disjoint and `r` is not assigned to exactly one instance. -/
theorem C1_counterexample :
    get_server_configs_dict [cfgNegA, cfgNegB, cfgNegC] = .ok (4, dNeg)
    ∧ (0 : Int) ≤ 2 ∧ (2 : Int) < 4
    ∧ (0, 0, 4) ∈ intervalsFrom [cfgNegA, cfgNegB, cfgNegC] dNeg 0 0
    ∧ (2, 2, 2) ∈ intervalsFrom [cfgNegA, cfgNegB, cfgNegC] dNeg 0 0
    ∧ covers (0, 0, 4) 2 ∧ covers (2, 2, 2) 2
    ∧ ((0, 0, 4) : Nat × Int × Int) ≠ (2, 2, 2) :=
  ⟨rfl, by decide, by decide, by decide, by decide, by decide, by decide,
    by decide⟩

/-- C4: for a registry-accepted topology whose instances all have at least
one rank (the data-model invariant `processCount ≥ 1`), every non-skipped
instance has its starting offset among the `T` ranks and covered by its own
interval, and each rank `r` of the instance computes `is_leader` exactly
when its local rank `r - offset` is zero — so exactly one rank per
instance, local rank 0, is leader. -/
theorem C4_unique_leader (cfgs : List CtxGenServerConfig) (T : Int) (d : SDict)
    (hreg : get_server_configs_dict cfgs = .ok (T, d))
    (hc : ∀ cfg ∈ cfgs, 1 ≤ cfg.instance_num_ranks) :
    ∀ e ∈ intervalsFrom cfgs d 0 0,
      (0 ≤ e.2.1 ∧ e.2.1 < T ∧ covers e e.2.1)
      ∧ (∀ r, covers e r →
          split_world_comm T r cfgs = .ok (decide (r = e.2.1), e.1, r - e.2.1)) := by
  intro e he
  have hc0 : ∀ cfg ∈ cfgs, 0 ≤ cfg.instance_num_ranks :=
    fun c h => le_trans (by norm_num) (hc c h)
  have hsum := isum_intervals_eq_total cfgs T d hreg
  have h1 := intervals_start_ge cfgs d 0 0 hc0 e he
  have h2 := intervals_end_le cfgs d 0 0 hc0 e he
  have h3 := intervals_count_lb 1 cfgs d 0 0 hc e he
  rw [hsum] at h2
  refine ⟨⟨h1, by omega, ⟨le_refl _, by omega⟩⟩, ?_⟩
  exact fun r hcov => split_record cfgs T d r e hreg hc0 he hcov

theorem C4_unique_leader_witness :
    split_world_comm 4 2 [cfgCtxH, cfgGenK] = .ok (true, 1, 0) := by
  have h := C4_unique_leader [cfgCtxH, cfgGenK] 4
    [((some "h", some 1), cfgCtxH), ((some "k", some 2), cfgGenK)]
    rfl (by decide)
  have h2 := (h (1, 2, 2) (by decide)).2 2 (by decide)
  simpa using h2

theorem error_bind {α β : Type} (e : Err) (f : α → Except Err β) :
    Bind.bind (Except.error e : Except Err α) f = Except.error e := rfl

/-- C6: normalizing one top-level key against the two role sections: it
fails with the config-conflict error naming the key exactly when some
section holds the key with a value not `==`-equal to the top-level value;
on success, a section already holding the key is left unchanged and a
section lacking it gets the top-level value injected. -/
theorem C6_inherit_trichotomy (key : String) (value : Val) (ctx gen : Dict) :
    ((∃ sec, inherit_kwargs [(key, value)] ctx gen
        = .error (Err.configConflict key sec)) ↔
      ((∃ v, dlookup ctx key = some v ∧ Val.beq v value = false)
        ∨ (∃ v, dlookup gen key = some v ∧ Val.beq v value = false)))
    ∧ (∀ ctx1 gen1, inherit_kwargs [(key, value)] ctx gen = .ok (ctx1, gen1) →
        (ctx1 = if (dlookup ctx key).isSome then ctx else dset ctx key value)
        ∧ (gen1 = if (dlookup gen key).isSome then gen else dset gen key value)) := by
  cases hc : dlookup ctx key with
  | some v =>
    cases hb : Val.beq v value with
    | false =>
      have hr : inherit_kwargs [(key, value)] ctx gen
          = .error (Err.configConflict key "context_servers") := by
        simp [inherit_kwargs, hc, hb, throw, throwThe, MonadExceptOf.throw,
          error_bind]
      refine ⟨⟨fun _ => Or.inl ⟨v, rfl, hb⟩, fun _ => ⟨"context_servers", hr⟩⟩, ?_⟩
      intro ctx1 gen1 h1
      rw [hr] at h1
      cases h1
    | true =>
      cases hg : dlookup gen key with
      | some w =>
        cases hb2 : Val.beq w value with
        | false =>
          have hr : inherit_kwargs [(key, value)] ctx gen
              = .error (Err.configConflict key "generation_servers") := by
            simp [inherit_kwargs, hc, hb, hg, hb2, throw, throwThe,
              MonadExceptOf.throw, error_bind, ok_bind, pure, Except.pure]
          refine ⟨⟨fun _ => Or.inr ⟨w, rfl, hb2⟩,
            fun _ => ⟨"generation_servers", hr⟩⟩, ?_⟩
          intro ctx1 gen1 h1
          rw [hr] at h1
          cases h1
        | true =>
          have hr : inherit_kwargs [(key, value)] ctx gen = .ok (ctx, gen) := by
            simp [inherit_kwargs, hc, hb, hg, hb2, ok_bind, pure, Except.pure]
          refine ⟨⟨?_, ?_⟩, ?_⟩
          · intro ⟨sec, hs⟩
            rw [hr] at hs
            cases hs
          · intro h
            rcases h with ⟨v0, hv, hbv⟩ | ⟨v0, hv, hbv⟩
            · cases hv
              rw [hb] at hbv
              cases hbv
            · cases hv
              rw [hb2] at hbv
              cases hbv
          · intro ctx1 gen1 h1
            rw [hr] at h1
            injection h1 with h1
            injection h1 with h1a h1b
            subst h1a
            subst h1b
            simp
      | none =>
        have hr : inherit_kwargs [(key, value)] ctx gen
            = .ok (ctx, dset gen key value) := by
          simp [inherit_kwargs, hc, hb, hg, ok_bind, pure, Except.pure]
        refine ⟨⟨?_, ?_⟩, ?_⟩
        · intro ⟨sec, hs⟩
          rw [hr] at hs
          cases hs
        · intro h
          rcases h with ⟨v0, hv, hbv⟩ | ⟨v0, hv, hbv⟩
          · cases hv
            rw [hb] at hbv
            cases hbv
          · cases hv
        · intro ctx1 gen1 h1
          rw [hr] at h1
          injection h1 with h1
          injection h1 with h1a h1b
          subst h1a
          subst h1b
          simp
  | none =>
    cases hg : dlookup gen key with
    | some w =>
      cases hb2 : Val.beq w value with
      | false =>
        have hr : inherit_kwargs [(key, value)] ctx gen
            = .error (Err.configConflict key "generation_servers") := by
          simp [inherit_kwargs, hc, hg, hb2, throw, throwThe,
            MonadExceptOf.throw, error_bind, ok_bind, pure, Except.pure]
        refine ⟨⟨fun _ => Or.inr ⟨w, rfl, hb2⟩,
          fun _ => ⟨"generation_servers", hr⟩⟩, ?_⟩
        intro ctx1 gen1 h1
        rw [hr] at h1
        cases h1
      | true =>
        have hr : inherit_kwargs [(key, value)] ctx gen
            = .ok (dset ctx key value, gen) := by
          simp [inherit_kwargs, hc, hg, hb2, ok_bind, pure, Except.pure]
        refine ⟨⟨?_, ?_⟩, ?_⟩
        · intro ⟨sec, hs⟩
          rw [hr] at hs
          cases hs
        · intro h
          rcases h with ⟨v0, hv, hbv⟩ | ⟨v0, hv, hbv⟩
          · cases hv
          · cases hv
            rw [hb2] at hbv
            cases hbv
        · intro ctx1 gen1 h1
          rw [hr] at h1
          injection h1 with h1
          injection h1 with h1a h1b
          subst h1a
          subst h1b
          simp
    | none =>
      have hr : inherit_kwargs [(key, value)] ctx gen
          = .ok (dset ctx key value, dset gen key value) := by
        simp [inherit_kwargs, hc, hg, ok_bind, pure, Except.pure]
      refine ⟨⟨?_, ?_⟩, ?_⟩
      · intro ⟨sec, hs⟩
        rw [hr] at hs
        cases hs
      · intro h
        rcases h with ⟨v0, hv, hbv⟩ | ⟨v0, hv, hbv⟩
        · cases hv
        · cases hv
      · intro ctx1 gen1 h1
        rw [hr] at h1
        injection h1 with h1
        injection h1 with h1a h1b
        subst h1a
        subst h1b
        simp

/-- C6 counterexample to the error-contents clause: at a concrete conflict
the raised error is exactly `configConflict` with the key and the role
section name — the payload the source's f-string interpolates — and not the
two differing values, which the message nowhere includes. -/
theorem C6_counterexample :
    inherit_kwargs [("a", Val.vint 1)] [("a", Val.vint 2)] []
      = .error (Err.configConflict "a" "context_servers") := rfl

theorem C6_inherit_trichotomy_witness :
    inherit_kwargs [("tensor_parallel_size", Val.vint 2)]
        [("tensor_parallel_size", Val.vint 4)] []
      = .error (Err.configConflict "tensor_parallel_size" "context_servers") := by
  have h := (C6_inherit_trichotomy "tensor_parallel_size" (Val.vint 2)
    [("tensor_parallel_size", Val.vint 4)] []).1.mpr
    (Or.inl ⟨Val.vint 4, rfl, rfl⟩)
  obtain ⟨sec, hs⟩ := h
  have hsec : sec = "context_servers" := by
    by_cases hq : sec = "context_servers"
    · exact hq
    · rw [show inherit_kwargs [("tensor_parallel_size", Val.vint 2)]
          [("tensor_parallel_size", Val.vint 4)] []
          = .error (Err.configConflict "tensor_parallel_size"
            "context_servers") from rfl] at hs
      injection hs with hs
      injection hs with hs1 hs2
      exact hs2.symm
  rw [hsec] at hs
  exact hs

/-- An instance with no assigned address (all other fields default). -/
def cfgUnassignedCtx : CtxGenServerConfig := { type := SType.ctx }

/-- C7 counterexample: a section that supplies an *empty* address list with
`num_instances = 2` does not fail with the count-mismatch error (the claim
requires failure, since the lengths 0 and 2 differ): Python's `if urls:`
treats the empty list as no list at all, and two unassigned instances are
produced. -/
theorem C7_counterexample :
    extract_ctx_gen_cfgs SType.ctx
        [("urls", Val.vlist []), ("num_instances", Val.vint 2)]
      = .ok [cfgUnassignedCtx, cfgUnassignedCtx]
    ∧ ((List.length ([] : List Val) : Int) ≠ 2) :=
  ⟨rfl, by decide⟩

/-- C7, amended to require a *non-empty* supplied address list (an empty one
is falsy in Python and is treated as absent, see the counterexample): with
every entry parsing as host and numeric port, expansion fails with the
count-mismatch error exactly when the list length differs from
`num_instances`, and on a match produces exactly the parsed instances in
list order, each with `tensor_parallel_size * pipeline_parallel_size` ranks
(both defaulting to 1). -/
theorem C7_instance_expansion (ty : SType) (d : Dict) (us : List Val)
    (hps : List (String × Int)) (n tp pp : Int)
    (hurls : dlookup d "urls" = some (.vlist us))
    (hne : us.isEmpty = false)
    (hparse : parse_urls us = .ok hps)
    (htype : dcontains d "type" = false)
    (hni : getIntField d "num_instances" 1 = .ok n)
    (htp : getIntField (derase (derase d "num_instances") "urls")
        "tensor_parallel_size" 1 = .ok tp)
    (hpp : getIntField (derase (derase d "num_instances") "urls")
        "pipeline_parallel_size" 1 = .ok pp) :
    (extract_ctx_gen_cfgs ty d = .error (Err.instanceCountMismatch hps.length n)
      ↔ (hps.length : Int) ≠ n)
    ∧ ((hps.length : Int) = n →
        extract_ctx_gen_cfgs ty d = .ok (hps.map fun hp =>
          { type := ty, hostname := some hp.1, port := some hp.2,
            instance_num_ranks := tp * pp,
            other_args := derase (derase d "num_instances") "urls" })) := by
  by_cases hlen : (hps.length : Int) = n
  · have hrp2 : resolve_url_pairs n (dlookup d "urls")
        = .ok (hps.map fun hp =>
            ((some hp.1 : Option String), (some hp.2 : Option Int))) := by
      rw [hurls]
      simp [resolve_url_pairs, hne, hparse, hlen]
    have hok : extract_ctx_gen_cfgs ty d = .ok (hps.map fun hp =>
        { type := ty, hostname := some hp.1, port := some hp.2,
          instance_num_ranks := tp * pp,
          other_args := derase (derase d "num_instances") "urls" }) := by
      unfold extract_ctx_gen_cfgs
      simp [htype, hni, hrp2, htp, hpp, ok_bind, pure, Except.pure,
        List.map_map, Function.comp]
    refine ⟨⟨?_, fun h => absurd hlen h⟩, fun _ => hok⟩
    intro h
    rw [hok] at h
    cases h
  · have hrp2 : resolve_url_pairs n (dlookup d "urls")
        = .error (Err.instanceCountMismatch hps.length n) := by
      rw [hurls]
      simp [resolve_url_pairs, hne, hparse, hlen]
    have herr : extract_ctx_gen_cfgs ty d
        = .error (Err.instanceCountMismatch hps.length n) := by
      unfold extract_ctx_gen_cfgs
      simp [htype, hni, hrp2, error_bind, ok_bind]
    exact ⟨⟨fun _ => hlen, fun _ => herr⟩, fun h => absurd h hlen⟩

theorem C7_instance_expansion_witness :
    extract_ctx_gen_cfgs SType.ctx
        [("urls", Val.vlist [Val.vstr "h1:100"]), ("num_instances", Val.vint 2)]
      = .error (Err.instanceCountMismatch 1 2) := by
  have h := C7_instance_expansion SType.ctx
    [("urls", Val.vlist [Val.vstr "h1:100"]), ("num_instances", Val.vint 2)]
    [Val.vstr "h1:100"] [("h1", 100)] 2 1 1
    rfl rfl rfl rfl rfl rfl rfl
  exact h.1.mpr (by decide)

/-- The two batching keys survive `copy_extract_keys` into the router
arguments. -/
theorem copy_extract_keys_spec (s a : Dict) :
    (∀ v, dlookup s "max_batch_size" = some v →
      dlookup (copy_extract_keys s a) "max_batch_size" = some v)
    ∧ (∀ v, dlookup s "max_num_tokens" = some v →
      dlookup (copy_extract_keys s a) "max_num_tokens" = some v) := by
  unfold copy_extract_keys
  simp only [List.foldl]
  constructor
  · intro v hv
    rw [hv]
    cases h2 : dlookup s "max_num_tokens" with
    | none => exact dlookup_dset_self a _ v
    | some w =>
      rw [dlookup_dset_ne _ _ _ _ (by decide)]
      exact dlookup_dset_self a _ v
  · intro v hv
    cases h1 : dlookup s "max_batch_size" with
    | none =>
      rw [hv]
      exact dlookup_dset_self a _ v
    | some w =>
      rw [hv]
      exact dlookup_dset_self _ _ v

/-- C8: router extraction removes the `router` mapping from the role
section (leaving every other key unchanged), defaults the router kind to
`"round_robin"` when none is given, and copies `max_batch_size` /
`max_num_tokens` into the router arguments when present while both stay,
unchanged, in the role section. -/
theorem C8_router_extraction (server_cfg : Dict) (rc : RouterConfig) (d1 : Dict)
    (h : extract_router_config server_cfg = .ok (rc, d1)) :
    dlookup d1 "router" = none
    ∧ (∀ k, k ≠ "router" → dlookup d1 k = dlookup server_cfg k)
    ∧ ((dlookup server_cfg "router" = none
        ∨ (∃ rd, dlookup server_cfg "router" = some (.vdict rd)
            ∧ dlookup rd "type" = none)) → rc.type = .vstr "round_robin")
    ∧ (∀ v, dlookup server_cfg "max_batch_size" = some v →
        dlookup rc.args "max_batch_size" = some v
        ∧ dlookup d1 "max_batch_size" = some v)
    ∧ (∀ v, dlookup server_cfg "max_num_tokens" = some v →
        dlookup rc.args "max_num_tokens" = some v
        ∧ dlookup d1 "max_num_tokens" = some v) := by
  cases hr0 : dlookup server_cfg "router" with
  | none =>
    simp only [extract_router_config, hr0, ok_bind, pure, Except.pure] at h
    injection h with h
    injection h with h1 h2
    subst h1
    subst h2
    refine ⟨dlookup_derase_self _ _, ?_, ?_, ?_, ?_⟩
    · intro k hk
      exact dlookup_derase_ne _ _ _ (Ne.symm hk)
    · intro _
      rfl
    · intro v hv
      have hs : dlookup (derase server_cfg "router") "max_batch_size" = some v := by
        rw [dlookup_derase_ne _ _ _ (by decide)]
        exact hv
      exact ⟨(copy_extract_keys_spec _ _).1 v hs, hs⟩
    · intro v hv
      have hs : dlookup (derase server_cfg "router") "max_num_tokens" = some v := by
        rw [dlookup_derase_ne _ _ _ (by decide)]
        exact hv
      exact ⟨(copy_extract_keys_spec _ _).2 v hs, hs⟩
  | some val =>
    cases val with
    | vdict rd =>
      simp only [extract_router_config, hr0, ok_bind, pure, Except.pure] at h
      injection h with h
      injection h with h1 h2
      subst h1
      subst h2
      refine ⟨dlookup_derase_self _ _, ?_, ?_, ?_, ?_⟩
      · intro k hk
        exact dlookup_derase_ne _ _ _ (Ne.symm hk)
      · intro hcase
        rcases hcase with hn | ⟨rd2, hrd2, hty2⟩
        · cases hn
        · injection hrd2 with hrd2
          injection hrd2 with hrd2
          subst hrd2
          show (match dlookup rd "type" with
            | some v => v
            | none => Val.vstr "round_robin") = Val.vstr "round_robin"
          rw [hty2]
      · intro v hv
        have hs : dlookup (derase server_cfg "router") "max_batch_size" = some v := by
          rw [dlookup_derase_ne _ _ _ (by decide)]
          exact hv
        exact ⟨(copy_extract_keys_spec _ _).1 v hs, hs⟩
      · intro v hv
        have hs : dlookup (derase server_cfg "router") "max_num_tokens" = some v := by
          rw [dlookup_derase_ne _ _ _ (by decide)]
          exact hv
        exact ⟨(copy_extract_keys_spec _ _).2 v hs, hs⟩
    | vnone =>
      simp [extract_router_config, hr0, error_bind, throw, throwThe,
        MonadExceptOf.throw] at h
    | vstr a =>
      simp [extract_router_config, hr0, error_bind, throw, throwThe,
        MonadExceptOf.throw] at h
    | vint a =>
      simp [extract_router_config, hr0, error_bind, throw, throwThe,
        MonadExceptOf.throw] at h
    | vbool a =>
      simp [extract_router_config, hr0, error_bind, throw, throwThe,
        MonadExceptOf.throw] at h
    | vlist a =>
      simp [extract_router_config, hr0, error_bind, throw, throwThe,
        MonadExceptOf.throw] at h

theorem C8_router_extraction_witness :
    dlookup [("max_batch_size", Val.vint 16), ("x", Val.vint 5)] "x"
        = some (Val.vint 5)
    ∧ (extract_router_config
        [("router", Val.vdict [("balance", Val.vint 1)]),
         ("max_batch_size", Val.vint 16), ("x", Val.vint 5)]).isOk = true := by
  have h := C8_router_extraction
    [("router", Val.vdict [("balance", Val.vint 1)]),
     ("max_batch_size", Val.vint 16), ("x", Val.vint 5)]
    { type := Val.vstr "round_robin",
      args := [("balance", Val.vint 1), ("max_batch_size", Val.vint 16)],
      server_role := none }
    [("max_batch_size", Val.vint 16), ("x", Val.vint 5)] rfl
  exact ⟨h.2.1 "x" (by decide), rfl⟩

/-- An unassigned generation instance (all defaults). -/
def cfgUnassignedGen : CtxGenServerConfig := { type := SType.gen }

/-- C9 counterexample: a generation section with `num_instances = 2` and no
address list expands to two unassigned instances, yet topology registration
*succeeds* when an unassigned context instance with equal `extraParams`
precedes them: each generation instance is then treated as a permitted
mixed-role duplicate of the context entry at `(None, None)`, so the claimed
unconditional duplicate-server failure does not happen. -/
theorem C9_counterexample :
    extract_ctx_gen_cfgs SType.gen [("num_instances", Val.vint 2)]
      = .ok [cfgUnassignedGen, cfgUnassignedGen]
    ∧ get_server_configs_dict [cfgUnassignedCtx, cfgUnassignedGen, cfgUnassignedGen]
      = .ok (1, [(((none : Option String), (none : Option Int)), cfgUnassignedCtx)]) :=
  ⟨rfl, rfl⟩

/-- C9, amended: the instances of a role section with `num_instances ≥ 2`
and no supplied address list all carry the absent address, and — provided no
*other-role* instance with an absent address precedes them in the scan (that
case is a permitted mixed-role duplicate, see the counterexample) — topology
registration fails with the same-role duplicate-server error at the absent
address. -/
theorem C9_unassigned_duplicate (R : SType) (d : Dict)
    (l : List CtxGenServerConfig) (n n0 : Int) (sd0 : SDict)
    (pre post : List CtxGenServerConfig)
    (hex : extract_ctx_gen_cfgs R d = .ok l)
    (hurls : dlookup d "urls" = none)
    (hni : getIntField d "num_instances" 1 = .ok n)
    (h2 : 2 ≤ n)
    (hpreok : get_scfgs_go pre 0 [] = .ok (n0, sd0))
    (hpre : ∀ cfg ∈ pre, cfg.hostname = none → cfg.port = none → cfg.type = R) :
    (∀ cfg ∈ l, cfg.hostname = none ∧ cfg.port = none ∧ cfg.type = R)
    ∧ get_server_configs_dict (pre ++ (l ++ post))
        = .error (Err.duplicateServer R
            ((none : Option String), (none : Option Int))) := by
  unfold extract_ctx_gen_cfgs at hex
  cases hty : dcontains d "type" with
  | true => rw [hty] at hex; cases hex
  | false =>
    rw [hty] at hex
    simp only [Bool.false_eq_true, if_false] at hex
    rw [hni] at hex
    simp only [ok_bind] at hex
    rw [hurls] at hex
    have hrp : resolve_url_pairs n none
        = .ok (List.replicate n.toNat
            ((none : Option String), (none : Option Int))) := rfl
    rw [hrp] at hex
    simp only [ok_bind] at hex
    cases htp : getIntField (derase (derase d "num_instances") "urls")
        "tensor_parallel_size" 1 with
    | error e => rw [htp] at hex; cases hex
    | ok tp =>
      rw [htp] at hex
      simp only [ok_bind] at hex
      cases hpp : getIntField (derase (derase d "num_instances") "urls")
          "pipeline_parallel_size" 1 with
      | error e => rw [hpp] at hex; cases hex
      | ok pp =>
        rw [hpp] at hex
        simp only [ok_bind, pure, Except.pure, Except.ok.injEq] at hex
        rw [List.map_replicate] at hex
        obtain ⟨k, hk⟩ : ∃ k, n.toNat = k + 2 := ⟨n.toNat - 2, by omega⟩
        rw [hk] at hex
        constructor
        · intro cfg hm
          rw [← hex] at hm
          have hcfg := List.eq_of_mem_replicate hm
          rw [hcfg]
          exact ⟨rfl, rfl, rfl⟩
        · have happ : get_server_configs_dict (pre ++ (l ++ post))
              = get_scfgs_go (l ++ post) n0 sd0 := by
            unfold get_server_configs_dict
            rw [get_scfgs_go_append, hpreok]
            rfl
          rw [happ, ← hex, List.replicate_succ, List.replicate_succ]
          simp only [List.cons_append]
          cases hsd : slookup sd0 ((none : Option String), (none : Option Int)) with
          | some prev =>
            have hmem := slookup_mem sd0 _ prev hsd
            rcases get_scfgs_go_entries pre 0 n0 [] sd0 hpreok _ hmem with
              hfalse | ⟨hmem2, haddr⟩
            · cases hfalse
            · have hh : prev.hostname = none := by
                have := congrArg Prod.fst haddr
                exact this.symm
              have hp : prev.port = none := by
                have := congrArg Prod.snd haddr
                exact this.symm
              have hR := hpre prev hmem2 hh hp
              simp only [get_scfgs_go, hsd, hR, if_true]
          | none =>
            simp only [get_scfgs_go, hsd]
            have hlook : ∀ c : CtxGenServerConfig,
                slookup (sd0 ++ [(((none : Option String), (none : Option Int)), c)])
                  ((none : Option String), (none : Option Int)) = some c := by
              intro c
              rw [slookup_append_of_none _ _ _ hsd]
              simp [slookup]
            simp only [get_scfgs_go, hlook, if_true]

theorem C9_unassigned_duplicate_witness :
    get_server_configs_dict [cfgUnassignedCtx, cfgUnassignedCtx]
      = .error (Err.duplicateServer SType.ctx
          ((none : Option String), (none : Option Int))) := by
  have h := C9_unassigned_duplicate SType.ctx [("num_instances", Val.vint 2)]
    [cfgUnassignedCtx, cfgUnassignedCtx] 2 0 [] [] []
    rfl rfl rfl (by decide) rfl (by intro c hc; cases hc)
  simpa using h.2

/-- The residual section returned by `extract_router_config` is the section
with the `router` entry removed. -/
theorem extract_router_residual (s : Dict) (rc : RouterConfig) (d1 : Dict)
    (h : extract_router_config s = .ok (rc, d1)) : d1 = derase s "router" := by
  cases hr0 : dlookup s "router" with
  | none =>
    simp only [extract_router_config, hr0, ok_bind, pure, Except.pure] at h
    injection h with h
    injection h with h1 h2
    exact h2.symm
  | some val =>
    cases val with
    | vdict rd =>
      simp only [extract_router_config, hr0, ok_bind, pure, Except.pure] at h
      injection h with h
      injection h with h1 h2
      exact h2.symm
    | vnone =>
      simp [extract_router_config, hr0, error_bind, throw, throwThe,
        MonadExceptOf.throw] at h
    | vstr a =>
      simp [extract_router_config, hr0, error_bind, throw, throwThe,
        MonadExceptOf.throw] at h
    | vint a =>
      simp [extract_router_config, hr0, error_bind, throw, throwThe,
        MonadExceptOf.throw] at h
    | vbool a =>
      simp [extract_router_config, hr0, error_bind, throw, throwThe,
        MonadExceptOf.throw] at h
    | vlist a =>
      simp [extract_router_config, hr0, error_bind, throw, throwThe,
        MonadExceptOf.throw] at h

/-- The expanded server configs of the two (router-stripped) sections carry
none of the consumed keys in `other_args`, and same-role configs share
`other_args`. -/
theorem server_configs_clean (ctx2 gen2 : Dict)
    (ctx_cfgs gen_cfgs : List CtxGenServerConfig)
    (hctxr : dlookup ctx2 "router" = none)
    (hgenr : dlookup gen2 "router" = none)
    (hcc : extract_ctx_gen_cfgs SType.ctx ctx2 = .ok ctx_cfgs)
    (hgg : extract_ctx_gen_cfgs SType.gen gen2 = .ok gen_cfgs) :
    (∀ c ∈ ctx_cfgs ++ gen_cfgs,
      dlookup c.other_args "router" = none
      ∧ dlookup c.other_args "num_instances" = none
      ∧ dlookup c.other_args "urls" = none)
    ∧ (∀ c1 ∈ ctx_cfgs ++ gen_cfgs, ∀ c2 ∈ ctx_cfgs ++ gen_cfgs,
        c1.type = c2.type → c1.other_args = c2.other_args) := by
  have hckw := extract_ctx_gen_ok_args SType.ctx ctx2 ctx_cfgs hcc
  have hgkw := extract_ctx_gen_ok_args SType.gen gen2 gen_cfgs hgg
  have hargs : ∀ (s : Dict), dlookup s "router" = none →
      dlookup (derase (derase s "num_instances") "urls") "router" = none
      ∧ dlookup (derase (derase s "num_instances") "urls") "num_instances" = none
      ∧ dlookup (derase (derase s "num_instances") "urls") "urls" = none := by
    intro s hs
    refine ⟨?_, ?_, dlookup_derase_self _ _⟩
    · rw [dlookup_derase_ne _ _ _ (by decide), dlookup_derase_ne _ _ _ (by decide)]
      exact hs
    · rw [dlookup_derase_ne _ _ _ (by decide)]
      exact dlookup_derase_self _ _
  constructor
  · intro c hm
    rcases List.mem_append.mp hm with hmc | hmg
    · rw [(hckw c hmc).2]
      exact hargs ctx2 hctxr
    · rw [(hgkw c hmg).2]
      exact hargs gen2 hgenr
  · intro c1 hm1 c2 hm2 hts
    rcases List.mem_append.mp hm1 with h1 | h1 <;>
      rcases List.mem_append.mp hm2 with h2 | h2
    · rw [(hckw c1 h1).2, (hckw c2 h2).2]
    · rw [(hckw c1 h1).1, (hgkw c2 h2).1] at hts
      cases hts
    · rw [(hgkw c1 h1).1, (hckw c2 h2).1] at hts
      cases hts
    · rw [(hgkw c1 h1).2, (hgkw c2 h2).2]

/-- C10: in every successfully composed configuration, no server config's
`other_args` contains the `router`, `num_instances` or `urls` key (the
router mapping is popped before expansion, the other two are consumed as
expansion parameters), and all configs of the same role carry structurally
equal `other_args`. -/
theorem C10_extra_params_clean (hostname : String) (port mr : Int)
    (cs gs cdc : Option Dict) (kwargs : List (String × Val))
    (cfg : DisaggServerConfig)
    (h : extract_disagg_cfg hostname port mr cs gs cdc kwargs = .ok cfg) :
    (∀ c ∈ cfg.server_configs,
      dlookup c.other_args "router" = none
      ∧ dlookup c.other_args "num_instances" = none
      ∧ dlookup c.other_args "urls" = none)
    ∧ (∀ c1 ∈ cfg.server_configs, ∀ c2 ∈ cfg.server_configs,
        c1.type = c2.type → c1.other_args = c2.other_args) := by
  simp only [extract_disagg_cfg] at h
  cases hik : inherit_kwargs kwargs (cs.getD []) (gs.getD []) with
  | error e =>
    rw [hik] at h
    simp only [error_bind] at h
    cases h
  | ok p =>
    obtain ⟨ctx1, gen1⟩ := p
    rw [hik] at h
    simp only [ok_bind] at h
    cases hrc : extract_router_config ctx1 with
    | error e =>
      rw [hrc] at h
      simp only [error_bind] at h
      cases h
    | ok prc =>
      obtain ⟨ctx_router0, ctx2⟩ := prc
      rw [hrc] at h
      simp only [ok_bind] at h
      cases hrg : extract_router_config gen1 with
      | error e =>
        rw [hrg] at h
        simp only [error_bind] at h
        cases h
      | ok prg =>
        obtain ⟨gen_router0, gen2⟩ := prg
        rw [hrg] at h
        simp only [ok_bind] at h
        cases hcc : extract_ctx_gen_cfgs SType.ctx ctx2 with
        | error e =>
          rw [hcc] at h
          simp only [error_bind] at h
          cases h
        | ok ctx_cfgs =>
          rw [hcc] at h
          simp only [ok_bind] at h
          cases hgg : extract_ctx_gen_cfgs SType.gen gen2 with
          | error e =>
            rw [hgg] at h
            simp only [error_bind] at h
            cases h
          | ok gen_cfgs =>
            rw [hgg] at h
            simp only [ok_bind] at h
            have hctxr : dlookup ctx2 "router" = none := by
              rw [extract_router_residual ctx1 ctx_router0 ctx2 hrc]
              exact dlookup_derase_self _ _
            have hgenr : dlookup gen2 "router" = none := by
              rw [extract_router_residual gen1 gen_router0 gen2 hrg]
              exact dlookup_derase_self _ _
            have hkey := server_configs_clean ctx2 gen2 ctx_cfgs gen_cfgs
              hctxr hgenr hcc hgg
            have hsc : cfg.server_configs = ctx_cfgs ++ gen_cfgs := by
              cases cdc with
              | none =>
                simp only [ok_bind, pure, Except.pure, Except.ok.injEq] at h
                rw [← h]
              | some dd =>
                cases dd with
                | nil =>
                  simp only [ok_bind, pure, Except.pure, Except.ok.injEq] at h
                  rw [← h]
                | cons p0 rest =>
                  simp only [ok_bind] at h
                  cases hcd : parse_conditional_disagg (p0 :: rest) with
                  | error e =>
                    rw [hcd] at h
                    simp only [error_bind] at h
                    cases h
                  | ok cc =>
                    rw [hcd] at h
                    simp only [ok_bind, pure, Except.pure, Except.ok.injEq] at h
                    rw [← h]
            rw [hsc]
            exact hkey

theorem C10_extra_params_clean_witness :
    dlookup cfgA1.other_args "router" = none
    ∧ dlookup cfgA1.other_args "num_instances" = none
    ∧ dlookup cfgA1.other_args "urls" = none := by
  have h := C10_extra_params_clean "localhost" 8000 3 (some ctxSectionA)
    (some genSectionA) none [] disaggConfigA rfl
  exact h.1 cfgA1 (List.mem_cons_self _ _)

end DisaggUtils
